import Mathlib

/-!
# react-weather-report: the `Temperature` component

A shallow embedding of `src/components/Temperature.jsx`.

Modelling conventions.

* The temperature is a JavaScript number that only ever takes integer values
  (it starts at `68` and is changed by adding integers); it is embedded as
  `Int`. The `+` of line 61 is the addition of doubles: `jsAdd` rounds the
  exact sum to the nearest double, ties to the even significand, so it is
  exact up to `2 ^ 53` in magnitude and rounds beyond. Sums of magnitude
  `2 ^ 1024` and more are `Infinity` in JavaScript; they are not integers and
  are not represented.
* `kTempRanges` is a list of pairs; the `for ... of` loop with an early
  `return` in `calculateTempRange` is the recursion `scanTempRanges`.
* The `useState` cell is a value together with the queue of updater functions
  handed to the setter since the last render; rendering the component runs the
  queued updaters in order, as React does for function-passing updates.
* The returned JSX has a fixed shape, so it is embedded as a record with one
  field per element.
-/

namespace WeatherReport

/-! ## Range data (lines 4-22) -/

/-- Value used to initialize the temperature state (line 5). -/
def kDefaultTemperature : Int := 68

/-- Ordered mapping from the lower bound of a temperature range to the css
class to apply for that range (lines 13-18). -/
def kTempRanges : List (Int × String) :=
  [(80, "very-hot"),
   (70, "hot"),
   (60, "warm"),
   (50, "mild")]

/-- Css class to apply if none of the bounded ranges applied (line 22). -/
def kFallbackTempRange : String := "cool"

/-! ## Range classifier (lines 31-42) -/

/-- The loop of `calculateTempRange` over the remaining records: the first
record whose lower bound is reached returns its range; when the records are
exhausted the fallback is returned. -/
def scanTempRanges (temperature : Int) : List (Int × String) → String
  | [] => kFallbackTempRange
  | (lower, range) :: rest =>
    if temperature ≥ lower then range else scanTempRanges temperature rest

/-- Map a temperature value to a css class range (lines 31-42). -/
def calculateTempRange (temperature : Int) : String :=
  scanTempRanges temperature kTempRanges

/-- The five css classes the component can apply: the four table labels in
table order, then the fallback. -/
def allTempRanges : List String :=
  kTempRanges.map Prod.snd ++ [kFallbackTempRange]

/-- The reference reading of the classifier: the label of the first record of
`kTempRanges`, in table order, whose lower bound is at most the value, and the
fallback when there is no such record. -/
def firstQualifyingRange (value : Int) : String :=
  match kTempRanges.find? (fun entry => decide (entry.1 ≤ value)) with
  | some entry => entry.2
  | none => kFallbackTempRange

/-! ## Addition of numbers (the `+` of line 61) -/

/-- The distance between neighbouring doubles at the magnitude `m`: 1 below
`2 ^ 53`, and twice as much for every further binary digit. The first argument
bounds the number of halvings; `m` itself is always enough. -/
def doubleSpacing : Nat → Nat → Nat
  | 0, _ => 1
  | fuel + 1, m => if m < 2 ^ 53 then 1 else 2 * doubleSpacing fuel (m / 2)

/-- The magnitude of the double nearest to the natural number `m`: the nearest
multiple of the spacing, and of two equally near ones the even multiple. -/
def roundMagnitude (m : Nat) : Nat :=
  let spacing := doubleSpacing m m
  let quotient := m / spacing
  let remainder := m % spacing
  if 2 * remainder < spacing then quotient * spacing
  else if spacing < 2 * remainder then (quotient + 1) * spacing
  else if quotient % 2 = 0 then quotient * spacing
  else (quotient + 1) * spacing

/-- The double nearest to an integer (round to nearest, ties to even). -/
def roundToDouble (x : Int) : Int :=
  if x < 0 then -(roundMagnitude x.natAbs : Int) else (roundMagnitude x.natAbs : Int)

/-- The sum `x + y` of two integer-valued numbers as JavaScript computes it:
the exact sum rounded to the nearest double. This holds for every sum whose
rounded magnitude is below `2 ^ 1024`; a larger sum is `Infinity` in
JavaScript and has no counterpart here. The theorems below that state the
value of a sum use it only up to `2 ^ 53 + 1` in magnitude. -/
def jsAdd (x y : Int) : Int :=
  roundToDouble (x + y)

/-- The largest magnitude up to which every integer is a double, `2 ^ 53`. -/
def kExactLimit : Int := 9007199254740992

/-- An integer of magnitude at most `2 ^ 53`. -/
def withinExactLimit (x : Int) : Prop :=
  -kExactLimit ≤ x ∧ x ≤ kExactLimit

instance (x : Int) : Decidable (withinExactLimit x) :=
  inferInstanceAs (Decidable (-kExactLimit ≤ x ∧ x ≤ kExactLimit))

/-! ## The component (lines 46-92) -/

/-- The piece of state created by `useState` (line 48): the current value and
the updater functions passed to the setter that have not been applied yet. -/
structure TemperatureState where
  temperature : Int
  pending : List (Int → Int)

/-- A fresh piece of state holding `initial`, with no update queued. -/
def useState (initial : Int) : TemperatureState :=
  { temperature := initial, pending := [] }

/-- The setter, called in function-passing style: the updater is queued behind
the updates already pending. -/
def setTemperature (updater : Int → Int) (cell : TemperatureState) : TemperatureState :=
  { cell with pending := cell.pending ++ [updater] }

/-- Change the temperature by some amount, up or down (lines 51-70). -/
def changeTemp (amount : Int) (cell : TemperatureState) : TemperatureState :=
  setTemperature (fun temperature => jsAdd temperature amount) cell

/-- Reading the piece of state at the start of a render: every queued updater
receives the value current when it is applied and returns the next value. -/
def applyPending (cell : TemperatureState) : TemperatureState :=
  { temperature := cell.pending.foldl (fun temperature updater => updater temperature)
      cell.temperature,
    pending := [] }

/-- A `button` element: its text and the amount its click handler passes to
`changeTemp`. -/
structure Button where
  label : String
  amount : Int

/-- The `span` element: its css class and its two children, the temperature
value followed by the unit symbol. -/
structure Display where
  className : String
  value : Int
  unit : String

/-- The markup returned by the component (lines 85-91). -/
structure Markup where
  className : String
  down : Button
  display : Display
  up : Button

/-- One render of the component: read the state, compute the range class in a
local variable (line 79) and return the markup. The unit is the text that
follows `{temperature}` on line 88 of the file, the three characters U+00E2,
U+201E, U+2030. -/
def Temperature (cell : TemperatureState) : TemperatureState × Markup :=
  let current := applyPending cell
  let temperature := current.temperature
  let tempRange := calculateTempRange temperature
  (current,
    { className := "Temperature",
      down := { label := "Down", amount := -1 },
      display := { className := tempRange, value := temperature, unit := "\u00e2\u201e\u2030" },
      up := { label := "Up", amount := 1 } })

/-- The two actions offered by the markup. -/
inductive Action where
  | Up
  | Down
  deriving DecidableEq

/-- The button an action presses. -/
def Action.button (markup : Markup) : Action → Button
  | Action.Up => markup.up
  | Action.Down => markup.down

/-- The click handler of a button (lines 87 and 89). -/
def click (button : Button) (cell : TemperatureState) : TemperatureState :=
  changeTemp button.amount cell

/-- The first render of a freshly created component. -/
def mount : TemperatureState × Markup :=
  Temperature (useState kDefaultTemperature)

/-- One action on the rendered component followed by the next render. -/
def act (screen : TemperatureState × Markup) (action : Action) : TemperatureState × Markup :=
  Temperature (click (action.button screen.2) screen.1)

/-- A finite sequence of actions applied to a freshly created component. -/
def run (actions : List Action) : TemperatureState × Markup :=
  actions.foldl act mount

/-- Several `changeTemp` calls made before the next render. -/
def changeTempAll (amounts : List Int) (cell : TemperatureState) : TemperatureState :=
  amounts.foldl (fun current amount => changeTemp amount current) cell

/-- The signed step of an action, used to state results. -/
def Action.step : Action → Int
  | Action.Up => 1
  | Action.Down => -1

/-! ## The category order -/

/-- The five categories from coldest to hottest. -/
def coolToHot : List String :=
  ["cool", "mild", "warm", "hot", "very-hot"]

/-- The position of a category in the order cool, mild, warm, hot, very-hot. -/
def tempRangeRank (range : String) : Nat :=
  coolToHot.indexOf range

/-! ## The value-passing variant (comment at lines 63-69) -/

/-- The setter called in value-passing style, `setTemperature(temperature +
amount)`: `temperature` is the local variable read from the piece of state at
the start of the render, so the queued update replaces the state with a value
computed from that snapshot. -/
def changeTempByValue (temperature amount : Int) (cell : TemperatureState) :
    TemperatureState :=
  setTemperature (fun _ => jsAdd temperature amount) cell

/-- One action followed by the next render, with the click handler written in
value-passing style: the snapshot is the value shown by the current render. -/
def actByValue (screen : TemperatureState × Markup) (action : Action) :
    TemperatureState × Markup :=
  Temperature
    (changeTempByValue screen.2.display.value (action.button screen.2).amount screen.1)

/-- The queued additions of several `changeTemp` calls applied in order to
the value `current`. -/
def jsAddAll (current : Int) (amounts : List Int) : Int :=
  amounts.foldl jsAdd current

/-! ## Basic facts about the classifier -/

/-- The loop unrolled over the four records of `kTempRanges`. -/
theorem calculateTempRange_unroll (v : Int) :
    calculateTempRange v =
      if v ≥ 80 then "very-hot"
      else if v ≥ 70 then "hot"
      else if v ≥ 60 then "warm"
      else if v ≥ 50 then "mild"
      else "cool" := by
  simp only [calculateTempRange, kTempRanges, scanTempRanges, kFallbackTempRange]

theorem allTempRanges_eq :
    allTempRanges = ["very-hot", "hot", "warm", "mild", "cool"] := by
  simp [allTempRanges, kTempRanges, kFallbackTempRange]

theorem calculateTempRange_mem (v : Int) : calculateTempRange v ∈ allTempRanges := by
  rw [calculateTempRange_unroll, allTempRanges_eq]
  split_ifs <;> simp

/-- The loop agrees with a find-first search, for any table of records. -/
theorem scanTempRanges_eq_find (v : Int) (table : List (Int × String)) :
    scanTempRanges v table =
      ((table.find? (fun entry => decide (entry.1 ≤ v))).map Prod.snd).getD
        kFallbackTempRange := by
  induction table with
  | nil => rfl
  | cons entry rest ih =>
    obtain ⟨lower, range⟩ := entry
    by_cases h : lower ≤ v
    · simp [scanTempRanges, List.find?, h]
    · simp [scanTempRanges, List.find?, h, ih]

/-- No record of the table qualifies exactly below the lowest bound. -/
theorem no_record_qualifies_iff (v : Int) :
    (∀ entry ∈ kTempRanges, ¬ entry.1 ≤ v) ↔ v < 50 := by
  simp only [kTempRanges, List.mem_cons, List.mem_singleton, List.not_mem_nil, or_false,
    forall_eq_or_imp, forall_eq]
  omega

/-- The fallback is returned exactly below the lowest bound. -/
theorem calculateTempRange_eq_fallback_iff (v : Int) :
    calculateTempRange v = kFallbackTempRange ↔ v < 50 := by
  rw [calculateTempRange_unroll, kFallbackTempRange]
  split_ifs <;> simp <;> omega

/-- The rank of the category of a value, by interval. -/
theorem tempRangeRank_calculateTempRange (v : Int) :
    tempRangeRank (calculateTempRange v) =
      if v ≥ 80 then 4
      else if v ≥ 70 then 3
      else if v ≥ 60 then 2
      else if v ≥ 50 then 1
      else 0 := by
  rw [calculateTempRange_unroll]
  split_ifs <;> decide

/-! ## Basic facts about the addition -/

theorem doubleSpacing_of_lt (fuel m : Nat) (h : m < 2 ^ 53) : doubleSpacing fuel m = 1 := by
  cases fuel with
  | zero => rfl
  | succ fuel => rw [doubleSpacing, if_pos h]

theorem doubleSpacing_pos (fuel m : Nat) : 0 < doubleSpacing fuel m := by
  induction fuel generalizing m with
  | zero => simp [doubleSpacing]
  | succ fuel ih =>
    rw [doubleSpacing]
    split_ifs
    · omega
    · have := ih (m / 2)
      omega

/-- The spacing is at most the magnitude divided by `2 ^ 52`. -/
theorem doubleSpacing_mul_le (fuel m : Nat) (h : 2 ^ 52 ≤ m) :
    doubleSpacing fuel m * 2 ^ 52 ≤ m := by
  induction fuel generalizing m with
  | zero => simpa [doubleSpacing] using h
  | succ fuel ih =>
    rw [doubleSpacing]
    split_ifs with hlt
    · omega
    · have := ih (m / 2) (by omega)
      omega

/-- Below `2 ^ 53` every natural number is the magnitude of a double. -/
theorem roundMagnitude_of_lt (m : Nat) (h : m < 2 ^ 53) : roundMagnitude m = m := by
  simp only [roundMagnitude, doubleSpacing_of_lt m m h, Nat.mod_one, Nat.div_one, Nat.mul_one]
  rw [if_pos (by omega)]

theorem roundMagnitude_of_le (m : Nat) (h : m ≤ 2 ^ 53) : roundMagnitude m = m := by
  rcases Nat.lt_or_eq_of_le h with hlt | rfl
  · exact roundMagnitude_of_lt m hlt
  · decide

/-- Rounding a magnitude of `2 ^ 53` or more leaves at least `2 ^ 52`. -/
theorem roundMagnitude_ge (m : Nat) (h : 2 ^ 53 ≤ m) : 2 ^ 52 ≤ roundMagnitude m := by
  have hpos := doubleSpacing_pos m m
  have hle := doubleSpacing_mul_le m m (by omega)
  have hdiv := Nat.div_add_mod' m (doubleSpacing m m)
  have hmod := Nat.mod_lt m hpos
  have hsucc : (m / doubleSpacing m m + 1) * doubleSpacing m m =
      m / doubleSpacing m m * doubleSpacing m m + doubleSpacing m m := by
    rw [Nat.add_mul, Nat.one_mul]
  simp only [roundMagnitude]
  rw [hsucc]
  generalize m / doubleSpacing m m * doubleSpacing m m = p at hdiv ⊢
  generalize m % doubleSpacing m m = r at hdiv hmod ⊢
  generalize doubleSpacing m m = spacing at hpos hle hmod ⊢
  split_ifs <;> omega

/-- Within `2 ^ 53` in magnitude every integer is a double. -/
theorem roundToDouble_of_within (x : Int) (h : withinExactLimit x) : roundToDouble x = x := by
  obtain ⟨hlow, hhigh⟩ := h
  rw [kExactLimit] at hlow hhigh
  have hmag : roundMagnitude x.natAbs = x.natAbs := roundMagnitude_of_le _ (by omega)
  rw [roundToDouble, hmag]
  split_ifs <;> omega

/-- Addition is exact when the sum is within `2 ^ 53` in magnitude. -/
theorem jsAdd_of_within (x y : Int) (h : withinExactLimit (x + y)) : jsAdd x y = x + y :=
  roundToDouble_of_within (x + y) h

/-- At `2 ^ 53` adding one changes nothing: `2 ^ 53 + 1` is a tie between
`2 ^ 53` and `2 ^ 53 + 2` and goes to the even significand. -/
theorem jsAdd_limit_one : jsAdd kExactLimit 1 = kExactLimit := by decide

theorem jsAdd_neg_limit_neg_one : jsAdd (-kExactLimit) (-1) = -kExactLimit := by decide

/-- One step up from a value within the limit stops at the limit. -/
theorem jsAdd_one (s : Int) (h : withinExactLimit s) : jsAdd s 1 = min (s + 1) kExactLimit := by
  by_cases hs : s = kExactLimit
  · rw [hs, jsAdd_limit_one]
    simp
  · have hw : withinExactLimit (s + 1) := by
      unfold withinExactLimit kExactLimit at h ⊢
      rw [kExactLimit] at hs
      omega
    rw [jsAdd_of_within s 1 hw]
    unfold withinExactLimit at hw
    omega

/-- One step down from a value within the limit stops at minus the limit. -/
theorem jsAdd_neg_one (s : Int) (h : withinExactLimit s) :
    jsAdd s (-1) = max (s - 1) (-kExactLimit) := by
  by_cases hs : s = -kExactLimit
  · rw [hs, jsAdd_neg_limit_neg_one]
    simp
  · have hw : withinExactLimit (s + -1) := by
      unfold withinExactLimit kExactLimit at h ⊢
      rw [kExactLimit] at hs
      omega
    rw [jsAdd_of_within s (-1) hw]
    unfold withinExactLimit at hw
    omega

/-- Rounding to a double does not change the category of a value. -/
theorem calculateTempRange_roundToDouble (x : Int) :
    calculateTempRange (roundToDouble x) = calculateTempRange x := by
  by_cases hhigh : x ≤ kExactLimit
  · by_cases hlow : -kExactLimit ≤ x
    · rw [roundToDouble_of_within x ⟨hlow, hhigh⟩]
    · rw [kExactLimit] at hlow
      have hmag := roundMagnitude_ge x.natAbs (by omega)
      have hcool : ∀ v : Int, v < 50 → calculateTempRange v = "cool" :=
        fun v hv => (calculateTempRange_eq_fallback_iff v).2 hv
      rw [hcool x (by omega)]
      apply hcool
      rw [roundToDouble, if_pos (by omega)]
      omega
  · rw [kExactLimit] at hhigh
    have hmag := roundMagnitude_ge x.natAbs (by omega)
    have hhot : ∀ v : Int, v ≥ 80 → calculateTempRange v = "very-hot" := by
      intro v hv
      rw [calculateTempRange_unroll, if_pos hv]
    rw [hhot x (by omega)]
    apply hhot
    rw [roundToDouble, if_neg (by omega)]
    omega

/-! ## Basic facts about the component -/

/-- The temperature read by a render of a piece of state with nothing pending. -/
theorem Temperature_useState (c : Int) :
    (Temperature (useState c)).1.temperature = c := rfl

/-- A render only depends on the value it reads. -/
theorem Temperature_eq_of_read (cell : TemperatureState) :
    Temperature cell = Temperature (useState (Temperature cell).1.temperature) := rfl

/-- Queuing several changes appends their updaters, in call order, behind the
updates already pending. -/
theorem changeTempAll_eq (amounts : List Int) (cell : TemperatureState) :
    changeTempAll amounts cell =
      { temperature := cell.temperature,
        pending := cell.pending ++
          amounts.map (fun amount => fun temperature => jsAdd temperature amount) } := by
  induction amounts generalizing cell with
  | nil => simp [changeTempAll]
  | cons amount rest ih =>
    have hstep : changeTempAll (amount :: rest) cell =
        changeTempAll rest (changeTemp amount cell) := rfl
    rw [hstep, ih]
    simp [changeTemp, setTemperature]

/-- Applying a queue of additions adds the amounts one after the other, each to
the value left by the one before. -/
theorem foldl_updaters_eq (amounts : List Int) (start : Int) :
    (amounts.map (fun amount => fun (temperature : Int) => jsAdd temperature amount)).foldl
        (fun temperature updater => updater temperature) start = jsAddAll start amounts := by
  induction amounts generalizing start with
  | nil => rfl
  | cons amount rest ih =>
    simp only [List.map_cons, List.foldl_cons]
    rw [ih]
    rfl

/-- The state read by the render after several queued changes. -/
theorem Temperature_changeTempAll (amounts : List Int) (cell : TemperatureState) :
    (Temperature (changeTempAll amounts cell)).1.temperature =
      jsAddAll (Temperature cell).1.temperature amounts := by
  rw [changeTempAll_eq]
  simp only [Temperature, applyPending, List.foldl_append]
  exact foldl_updaters_eq amounts _

/-- One queued change re-renders the component at the sum of the value read
and the amount. -/
theorem Temperature_changeTemp (a : Int) (cell : TemperatureState) :
    Temperature (changeTemp a cell) =
      Temperature (useState (jsAdd (Temperature cell).1.temperature a)) := by
  have h := Temperature_changeTempAll [a] cell
  have hread : (Temperature (changeTemp a cell)).1.temperature =
      jsAdd (Temperature cell).1.temperature a := h
  rw [Temperature_eq_of_read (changeTemp a cell), hread]

/-- One action on a rendered component re-renders it one step further. -/
theorem act_Temperature (c : Int) (action : Action) :
    act (Temperature (useState c)) action = Temperature (useState (jsAdd c action.step)) := by
  cases action <;> rfl

/-- One action in value-passing style on a rendered component re-renders it one
step further. -/
theorem actByValue_Temperature (c : Int) (action : Action) :
    actByValue (Temperature (useState c)) action =
      Temperature (useState (jsAdd c action.step)) := by
  cases action <;> rfl

/-- The first render is the render of the default value. -/
theorem mount_eq : mount = Temperature (useState 68) := rfl

/-- Every action leaves a screen that is the render of its own temperature. -/
theorem foldl_act_rendered (actions : List Action) (screen : TemperatureState × Markup)
    (h : screen = Temperature (useState screen.1.temperature)) :
    actions.foldl act screen =
      Temperature (useState (actions.foldl act screen).1.temperature) := by
  induction actions generalizing screen with
  | nil => exact h
  | cons action rest ih => exact ih (act screen action) rfl

/-- Every reachable screen is the render of its own temperature. -/
theorem run_rendered (actions : List Action) :
    run actions = Temperature (useState (run actions).1.temperature) :=
  foldl_act_rendered actions mount rfl

/-- The queued additions give the exact sum when every partial sum is within
`2 ^ 53` in magnitude. -/
theorem jsAddAll_of_within (amounts : List Int) (c : Int)
    (h : ∀ k : Nat, k ≤ amounts.length → withinExactLimit (c + (amounts.take k).sum)) :
    jsAddAll c amounts = c + amounts.sum := by
  induction amounts generalizing c with
  | nil => simp [jsAddAll]
  | cons amount rest ih =>
    have hfirst : withinExactLimit (c + amount) := by
      simpa using h 1 (by simp)
    have hrest : ∀ k : Nat, k ≤ rest.length →
        withinExactLimit (c + amount + (rest.take k).sum) := by
      intro k hk
      have := h (k + 1) (by simpa using hk)
      simpa [Int.add_assoc] using this
    have hstep : jsAddAll c (amount :: rest) = jsAddAll (jsAdd c amount) rest := rfl
    rw [hstep, jsAdd_of_within c amount hfirst, ih (c + amount) hrest, List.sum_cons,
      Int.add_assoc]

/-- A sequence of actions that cannot leave the exact range re-renders the
component at the sum of the steps. -/
theorem foldl_act_of_within (actions : List Action) (c : Int)
    (h : -kExactLimit ≤ c - actions.length ∧ c + actions.length ≤ kExactLimit) :
    actions.foldl act (Temperature (useState c)) =
      Temperature (useState (c + (actions.map Action.step).sum)) := by
  induction actions generalizing c with
  | nil => simp
  | cons action rest ih =>
    simp only [List.length_cons, Nat.cast_add, Nat.cast_one] at h
    have hstep : withinExactLimit (c + action.step) := by
      unfold withinExactLimit
      cases action <;> simp only [Action.step] <;> omega
    have hnext : -kExactLimit ≤ c + action.step - rest.length ∧
        c + action.step + rest.length ≤ kExactLimit := by
      cases action <;> simp only [Action.step] <;> omega
    simp only [List.foldl_cons, List.map_cons, List.sum_cons]
    rw [act_Temperature, jsAdd_of_within c action.step hstep, ih (c + action.step) hnext,
      Int.add_assoc]

/-- Repeated Up from a value within the limit climbs one by one and stops at
`2 ^ 53`. -/
theorem foldl_act_replicate_up (n : Nat) (c : Int) (h : withinExactLimit c) :
    (List.replicate n Action.Up).foldl act (Temperature (useState c)) =
      Temperature (useState (min (c + n) kExactLimit)) := by
  induction n generalizing c with
  | zero =>
    unfold withinExactLimit at h
    simp [h.2]
  | succ n ih =>
    have hone : jsAdd c Action.Up.step = min (c + 1) kExactLimit := jsAdd_one c h
    have hnext : withinExactLimit (min (c + 1) kExactLimit) := by
      unfold withinExactLimit kExactLimit at h ⊢
      omega
    rw [List.replicate_succ, List.foldl_cons, act_Temperature, hone, ih _ hnext]
    congr 2
    unfold withinExactLimit kExactLimit at h
    rw [kExactLimit]
    push_cast
    omega

/-- Repeated Down from a value within the limit descends one by one and stops
at `-2 ^ 53`. -/
theorem foldl_act_replicate_down (n : Nat) (c : Int) (h : withinExactLimit c) :
    (List.replicate n Action.Down).foldl act (Temperature (useState c)) =
      Temperature (useState (max (c - n) (-kExactLimit))) := by
  induction n generalizing c with
  | zero =>
    unfold withinExactLimit at h
    simp [h.1]
  | succ n ih =>
    have hone : jsAdd c Action.Down.step = max (c - 1) (-kExactLimit) := jsAdd_neg_one c h
    have hnext : withinExactLimit (max (c - 1) (-kExactLimit)) := by
      unfold withinExactLimit kExactLimit at h ⊢
      omega
    rw [List.replicate_succ, List.foldl_cons, act_Temperature, hone, ih _ hnext]
    congr 2
    unfold withinExactLimit kExactLimit at h
    rw [kExactLimit]
    push_cast
    omega

/-- The sum of the steps counts the Up actions minus the Down actions. -/
theorem sum_step_eq_count (actions : List Action) :
    (actions.map Action.step).sum =
      (actions.count Action.Up : Int) - (actions.count Action.Down : Int) := by
  induction actions with
  | nil => simp
  | cons action rest ih =>
    cases action <;>
      simp [List.count_cons, Action.step, ih] <;> omega

/-- The two styles do differ once two calls share a render: in value-passing
style both updates start from the same snapshot and the first one is lost. -/
theorem changeTempByValue_two_calls_lose_one :
    (Temperature (changeTempByValue 68 1 (changeTempByValue 68 1 (useState 68)))).1.temperature
        = 69 ∧
      (Temperature (changeTemp 1 (changeTemp 1 (useState 68)))).1.temperature = 70 := by
  decide

/-! ## Claims -/

/-- C1: for every integer `v`, `calculateTempRange v` is exactly one of the
five labels very-hot, hot, warm, mild, cool (the function is total and has no
error result), and for every `v ≥ 80` it is very-hot. -/
theorem calculateTempRange_total_five_labels (v : Int) :
    (∃! l, l ∈ ["very-hot", "hot", "warm", "mild", "cool"] ∧ calculateTempRange v = l) ∧
      (v ≥ 80 → calculateTempRange v = "very-hot") := by
  refine ⟨⟨calculateTempRange v, ⟨?_, rfl⟩, ?_⟩, ?_⟩
  · rw [← allTempRanges_eq]
    exact calculateTempRange_mem v
  · rintro l ⟨-, hl⟩
    exact hl.symm
  · intro h
    rw [calculateTempRange_unroll, if_pos h]

theorem calculateTempRange_total_five_labels_witness :
    ((85 : Int) ≥ 80) ∧ calculateTempRange 85 = "very-hot" :=
  ⟨by decide, (calculateTempRange_total_five_labels 85).2 (by decide)⟩

/-- C2: `calculateTempRange` is lower-bound-inclusive at every threshold: 80 is
very-hot and 79 is hot, 70 is hot and 69 is warm, 60 is warm and 59 is mild,
50 is mild and 49 is cool. Equivalently, every record `(lower, label)` of
`kTempRanges` classifies `lower` as `label` and `lower - 1` as the label of
the next record, or as the fallback for the last record. -/
theorem calculateTempRange_lower_bound_inclusive :
    (calculateTempRange 80 = "very-hot" ∧ calculateTempRange 79 = "hot") ∧
    (calculateTempRange 70 = "hot" ∧ calculateTempRange 69 = "warm") ∧
    (calculateTempRange 60 = "warm" ∧ calculateTempRange 59 = "mild") ∧
    (calculateTempRange 50 = "mild" ∧ calculateTempRange 49 = "cool") ∧
    ∀ i : Fin kTempRanges.length,
      calculateTempRange (kTempRanges.get i).1 = (kTempRanges.get i).2 ∧
      calculateTempRange ((kTempRanges.get i).1 - 1) =
        ((kTempRanges.get? (i.val + 1)).map Prod.snd).getD kFallbackTempRange := by
  refine ⟨⟨?_, ?_⟩, ⟨?_, ?_⟩, ⟨?_, ?_⟩, ⟨?_, ?_⟩, ?_⟩
  · rw [calculateTempRange_unroll]; simp
  · rw [calculateTempRange_unroll]; simp
  · rw [calculateTempRange_unroll]; simp
  · rw [calculateTempRange_unroll]; simp
  · rw [calculateTempRange_unroll]; simp
  · rw [calculateTempRange_unroll]; simp
  · rw [calculateTempRange_unroll]; simp
  · rw [calculateTempRange_unroll]; simp
  · intro i
    revert i
    decide

/-- C3: for every integer `v`, `calculateTempRange v` is the label of the first
record of `kTempRanges`, in table order, whose lower bound is at most `v`, and
is `kFallbackTempRange` when no record has a lower bound at most `v`: the loop
with early return agrees with the find-first reference definition. -/
theorem calculateTempRange_eq_firstQualifyingRange (v : Int) :
    calculateTempRange v = firstQualifyingRange v ∧
    (∀ (i : Nat) (entry : Int × String), kTempRanges.get? i = some entry →
      entry.1 ≤ v →
      (∀ (j : Nat) (earlier : Int × String), j < i → kTempRanges.get? j = some earlier →
        ¬ earlier.1 ≤ v) →
      calculateTempRange v = entry.2) ∧
    ((∀ entry ∈ kTempRanges, ¬ entry.1 ≤ v) → calculateTempRange v = kFallbackTempRange) := by
  refine ⟨?_, ?_, ?_⟩
  · rw [calculateTempRange, scanTempRanges_eq_find, firstQualifyingRange]
    cases kTempRanges.find? (fun entry => decide (entry.1 ≤ v)) <;> rfl
  · intro i entry hget hi hfirst
    have h0 := fun (h : 0 < i) => hfirst 0 (80, "very-hot") h rfl
    have h1 := fun (h : 1 < i) => hfirst 1 (70, "hot") h rfl
    have h2 := fun (h : 2 < i) => hfirst 2 (60, "warm") h rfl
    rw [calculateTempRange_unroll]
    rcases i with _ | _ | _ | _ | n
    · obtain rfl : (80, "very-hot") = entry := by simpa [kTempRanges] using hget
      simp only [] at hi
      simp [hi]
    · obtain rfl : (70, "hot") = entry := by simpa [kTempRanges] using hget
      simp only [] at hi
      have := h0 (by omega)
      simp only [] at this
      simp [hi, this]
    · obtain rfl : (60, "warm") = entry := by simpa [kTempRanges] using hget
      simp only [] at hi
      have a0 := h0 (by omega)
      have a1 := h1 (by omega)
      simp only [] at a0 a1
      simp [hi, a0, a1]
    · obtain rfl : (50, "mild") = entry := by simpa [kTempRanges] using hget
      simp only [] at hi
      have a0 := h0 (by omega)
      have a1 := h1 (by omega)
      have a2 := h2 (by omega)
      simp only [] at a0 a1 a2
      simp [hi, a0, a1, a2]
    · simp [kTempRanges] at hget
  · intro hnone
    exact (calculateTempRange_eq_fallback_iff v).2 ((no_record_qualifies_iff v).1 hnone)

theorem calculateTempRange_eq_firstQualifyingRange_witness :
    (∀ entry ∈ kTempRanges, ¬ entry.1 ≤ (42 : Int)) ∧
      calculateTempRange 42 = kFallbackTempRange :=
  ⟨(no_record_qualifies_iff 42).2 (by decide),
   (calculateTempRange_eq_firstQualifyingRange 42).2.2
     ((no_record_qualifies_iff 42).2 (by decide))⟩

/-- C4: for every integer `v`, `calculateTempRange v` is cool (the fallback
label) if and only if no record of `kTempRanges` has a lower bound at most `v`,
which holds if and only if `v < 50`; in particular every negative integer is
classified cool. -/
theorem calculateTempRange_cool_iff (v : Int) :
    (calculateTempRange v = "cool" ↔ ∀ entry ∈ kTempRanges, ¬ entry.1 ≤ v) ∧
    ((∀ entry ∈ kTempRanges, ¬ entry.1 ≤ v) ↔ v < 50) ∧
    (v < 0 → calculateTempRange v = "cool") := by
  have hcool : calculateTempRange v = "cool" ↔ v < 50 := calculateTempRange_eq_fallback_iff v
  refine ⟨hcool.trans (no_record_qualifies_iff v).symm, no_record_qualifies_iff v, ?_⟩
  intro hneg
  exact hcool.2 (by omega)

theorem calculateTempRange_cool_iff_witness :
    ((-7 : Int) < 0) ∧ calculateTempRange (-7) = "cool" :=
  ⟨by decide, (calculateTempRange_cool_iff (-7)).2.2 (by decide)⟩

/-- C5: tie-break. For every integer `v` for which at least one record of
`kTempRanges` qualifies (lower bound at most `v`), `calculateTempRange v` is
the label of the qualifying record with the highest lower bound: whenever it
returns the label of a record, every other qualifying record has a strictly
smaller lower bound. -/
theorem calculateTempRange_highest_qualifying (v : Int)
    (hq : ∃ entry ∈ kTempRanges, entry.1 ≤ v) :
    (∃ entry ∈ kTempRanges, entry.1 ≤ v ∧ calculateTempRange v = entry.2 ∧
      ∀ other ∈ kTempRanges, other ≠ entry → other.1 ≤ v → other.1 < entry.1) ∧
    (∀ entry ∈ kTempRanges, calculateTempRange v = entry.2 →
      ∀ other ∈ kTempRanges, other ≠ entry → other.1 ≤ v → other.1 < entry.1) := by
  have h50 : 50 ≤ v := by
    by_contra hlt
    obtain ⟨entry, hmem, hle⟩ := hq
    exact (no_record_qualifies_iff v).2 (by omega) entry hmem hle
  constructor
  · rw [calculateTempRange_unroll]
    by_cases h80 : v ≥ 80
    · refine ⟨(80, "very-hot"), by simp [kTempRanges], h80, by simp [h80], ?_⟩
      simp [kTempRanges]
    by_cases h70 : v ≥ 70
    · refine ⟨(70, "hot"), by simp [kTempRanges], h70, by simp [h80, h70], ?_⟩
      simp [kTempRanges]; omega
    by_cases h60 : v ≥ 60
    · refine ⟨(60, "warm"), by simp [kTempRanges], h60, by simp [h80, h70, h60], ?_⟩
      simp [kTempRanges]; omega
    · refine ⟨(50, "mild"), by simp [kTempRanges], h50, by simp [h80, h70, h60, h50], ?_⟩
      simp [kTempRanges]; omega
  · intro entry hmem hret other hother hne hle
    rw [calculateTempRange_unroll] at hret
    simp only [kTempRanges, List.mem_cons, List.mem_singleton, List.not_mem_nil,
      or_false] at hmem hother
    rcases hmem with rfl | rfl | rfl | rfl <;>
      rcases hother with rfl | rfl | rfl | rfl <;>
        simp at hne hle hret ⊢ <;> split_ifs at hret <;> simp at hret

theorem calculateTempRange_highest_qualifying_witness :
    (∃ entry ∈ kTempRanges, entry.1 ≤ (75 : Int)) ∧
    ((∃ entry ∈ kTempRanges, entry.1 ≤ (75 : Int) ∧ calculateTempRange 75 = entry.2 ∧
      ∀ other ∈ kTempRanges, other ≠ entry → other.1 ≤ (75 : Int) → other.1 < entry.1) ∧
    (∀ entry ∈ kTempRanges, calculateTempRange 75 = entry.2 →
      ∀ other ∈ kTempRanges, other ≠ entry → other.1 ≤ (75 : Int) → other.1 < entry.1)) :=
  ⟨⟨(70, "hot"), by simp [kTempRanges], by decide⟩,
   calculateTempRange_highest_qualifying 75 ⟨(70, "hot"), by simp [kTempRanges], by decide⟩⟩

/-- C6, as stated, fails: with the current value `2 ^ 53 = 9007199254740992`
the call `changeTemp 1`, which is what the Up action does, leaves the state at
`2 ^ 53` and not at `c + a = 2 ^ 53 + 1`. -/
theorem changeTemp_one_at_limit_not_sum :
    (Temperature (changeTemp 1 (useState 9007199254740992))).1.temperature =
      9007199254740992 ∧
    (act (Temperature (useState 9007199254740992)) Action.Up).1.temperature =
      9007199254740992 ∧
    (Temperature (changeTemp 1 (useState 9007199254740992))).1.temperature ≠
      9007199254740992 + 1 := by
  decide

/-- C6, amended: for all integer-valued numbers `c` and `a` whose sum `c + a`
is at most `2 ^ 53` in magnitude, `changeTemp a` sets the temperature state to
exactly `c + a`, with no clamping or bounds check. The Up action applies
`a = 1` (new value `c + 1` when that is within the limit) and the Down action
applies `a = -1` (new value `c - 1` when that is within the limit). -/
theorem changeTemp_sets_sum (c a : Int) :
    (withinExactLimit (c + a) →
      (Temperature (changeTemp a (useState c))).1.temperature = c + a) ∧
    (Temperature (useState c)).2.up.amount = 1 ∧
    (Temperature (useState c)).2.down.amount = -1 ∧
    (withinExactLimit (c + 1) →
      (act (Temperature (useState c)) Action.Up).1.temperature = c + 1) ∧
    (withinExactLimit (c - 1) →
      (act (Temperature (useState c)) Action.Down).1.temperature = c - 1) := by
  have hread : (Temperature (changeTemp a (useState c))).1.temperature = jsAdd c a := by
    rw [Temperature_changeTemp, Temperature_useState, Temperature_useState]
  refine ⟨?_, rfl, rfl, ?_, ?_⟩
  · intro hsum
    rw [hread, jsAdd_of_within c a hsum]
  · intro hup
    rw [act_Temperature, Temperature_useState]
    exact jsAdd_of_within c 1 hup
  · intro hdown
    rw [act_Temperature, Temperature_useState]
    exact jsAdd_of_within c (-1) hdown

theorem changeTemp_sets_sum_witness :
    (withinExactLimit (68 + 5) ∧
      (Temperature (changeTemp 5 (useState 68))).1.temperature = 68 + 5) ∧
    (withinExactLimit (68 + 1) ∧
      (act (Temperature (useState 68)) Action.Up).1.temperature = 68 + 1) ∧
    (withinExactLimit (68 - 1) ∧
      (act (Temperature (useState 68)) Action.Down).1.temperature = 68 - 1) :=
  ⟨⟨by decide, (changeTemp_sets_sum 68 5).1 (by decide)⟩,
   ⟨by decide, (changeTemp_sets_sum 68 5).2.2.2.1 (by decide)⟩,
   ⟨by decide, (changeTemp_sets_sum 68 5).2.2.2.2 (by decide)⟩⟩

/-- C7, as stated, fails: `2 ^ 53` Up actions followed by `2 ^ 53` Down
actions end at 0, while the same actions with the Down actions first end at
68, which is what 68 plus the number of Up actions minus the number of Down
actions gives. The result depends on the order. -/
theorem run_ups_then_downs_at_limit :
    (run (List.replicate 9007199254740992 Action.Up ++
        List.replicate 9007199254740992 Action.Down)).1.temperature = 0 ∧
    (run (List.replicate 9007199254740992 Action.Down ++
        List.replicate 9007199254740992 Action.Up)).1.temperature = 68 ∧
    List.Perm
      (List.replicate 9007199254740992 Action.Up ++
        List.replicate 9007199254740992 Action.Down)
      (List.replicate 9007199254740992 Action.Down ++
        List.replicate 9007199254740992 Action.Up) := by
  have hstart : withinExactLimit 68 := by decide
  have hlimit : withinExactLimit kExactLimit := by decide
  have hlow : withinExactLimit (68 - 9007199254740992) := by decide
  have hup : min ((68 : Int) + ((9007199254740992 : Nat) : Int)) kExactLimit = kExactLimit := by
    decide
  have hdown : max (kExactLimit - ((9007199254740992 : Nat) : Int)) (-kExactLimit) = 0 := by
    decide
  have hdown2 : max ((68 : Int) - ((9007199254740992 : Nat) : Int)) (-kExactLimit) =
      68 - 9007199254740992 := by
    decide
  have hup2 : min ((68 : Int) - 9007199254740992 + ((9007199254740992 : Nat) : Int))
      kExactLimit = 68 := by
    decide
  refine ⟨?_, ?_, List.perm_append_comm⟩
  · rw [run, List.foldl_append, mount_eq, foldl_act_replicate_up _ 68 hstart, hup,
      foldl_act_replicate_down _ _ hlimit, hdown, Temperature_useState]
  · rw [run, List.foldl_append, mount_eq, foldl_act_replicate_down _ 68 hstart, hdown2,
      foldl_act_replicate_up _ _ hlow, hup2, Temperature_useState]

/-- C7, amended: for every finite sequence of at most `2 ^ 53 - 68` Up and Down
actions applied to a freshly created component, the resulting temperature is
68 plus the number of Up actions minus the number of Down actions, independent
of their order; in particular three Up actions followed by one Down action
yield 70, and `calculateTempRange 70` is hot. -/
theorem run_temperature_eq_count (actions : List Action)
    (hlen : (actions.length : Int) ≤ kExactLimit - 68) :
    (run actions).1.temperature =
      68 + (actions.count Action.Up : Int) - (actions.count Action.Down : Int) ∧
    (∀ reordered : List Action, List.Perm actions reordered →
      (run reordered).1.temperature = (run actions).1.temperature) ∧
    (run [Action.Up, Action.Up, Action.Up, Action.Down]).1.temperature = 70 ∧
    calculateTempRange 70 = "hot" := by
  have hrun : ∀ acts : List Action, (acts.length : Int) ≤ kExactLimit - 68 →
      (run acts).1.temperature =
        68 + (acts.count Action.Up : Int) - (acts.count Action.Down : Int) := by
    intro acts hacts
    have hrange : -kExactLimit ≤ (68 : Int) - acts.length ∧
        (68 : Int) + acts.length ≤ kExactLimit := by
      rw [kExactLimit] at hacts ⊢
      omega
    have hfold := foldl_act_of_within acts 68 hrange
    have hmount : run acts = acts.foldl act (Temperature (useState 68)) := rfl
    rw [hmount, hfold, Temperature_useState, sum_step_eq_count]
    omega
  refine ⟨hrun actions hlen, ?_, ?_, ?_⟩
  · intro reordered hperm
    rw [hrun actions hlen, hrun reordered (by rw [← hperm.length_eq]; exact hlen),
      hperm.count_eq Action.Up, hperm.count_eq Action.Down]
  · decide
  · rw [calculateTempRange_unroll]; simp

theorem run_temperature_eq_count_witness :
    (([Action.Up, Action.Down, Action.Up] : List Action).length : Int) ≤ kExactLimit - 68 ∧
    List.Perm [Action.Up, Action.Down, Action.Up] [Action.Down, Action.Up, Action.Up] ∧
    (run [Action.Up, Action.Down, Action.Up]).1.temperature =
      68 + (([Action.Up, Action.Down, Action.Up] : List Action).count Action.Up : Int) -
        (([Action.Up, Action.Down, Action.Up] : List Action).count Action.Down : Int) ∧
    (run [Action.Down, Action.Up, Action.Up]).1.temperature =
      (run [Action.Up, Action.Down, Action.Up]).1.temperature :=
  ⟨by decide, List.Perm.swap Action.Down Action.Up [Action.Up],
   (run_temperature_eq_count [Action.Up, Action.Down, Action.Up] (by decide)).1,
   (run_temperature_eq_count [Action.Up, Action.Down, Action.Up] (by decide)).2.1
     [Action.Down, Action.Up, Action.Up] (List.Perm.swap Action.Down Action.Up [Action.Up])⟩

/-- C8, as stated, fails: from the current value `2 ^ 53 = 9007199254740992`
two queued increments leave the state at `2 ^ 53`, not at `2 ^ 53 + 2`, and
from 68 the queued amount 9007199254740925 gives 9007199254740992, not
9007199254740993. -/
theorem changeTempAll_at_limit_not_sum :
    (Temperature (changeTempAll [1, 1] (useState 9007199254740992))).1.temperature =
      9007199254740992 ∧
    (Temperature (changeTempAll [1, 1] (useState 9007199254740992))).1.temperature ≠
      9007199254740992 + ([1, 1] : List Int).sum ∧
    (Temperature (changeTempAll [9007199254740925] (useState 68))).1.temperature =
      9007199254740992 ∧
    (Temperature (changeTempAll [9007199254740925] (useState 68))).1.temperature ≠
      68 + ([9007199254740925] : List Int).sum := by
  decide

/-- C8, amended: no lost updates. `changeTemp` passes an updater function, so
each queued update is computed from the value current when it is applied: for
every current value `c` and every list of amounts queued by `changeTemp` before
the next render, such that every partial sum `c + a1 + ... + ak` is at most
`2 ^ 53` in magnitude, the resulting state is `c` plus the sum of the amounts,
also when `c` is the value left by updates that were already pending; in
particular three rapid increments from 68 yield 71. -/
theorem changeTempAll_no_lost_updates (c : Int) (amounts : List Int)
    (hwithin : ∀ k : Nat, k ≤ amounts.length → withinExactLimit (c + (amounts.take k).sum)) :
    (Temperature (changeTempAll amounts (useState c))).1.temperature = c + amounts.sum ∧
    (∀ cell : TemperatureState, (Temperature cell).1.temperature = c →
      (Temperature (changeTempAll amounts cell)).1.temperature = c + amounts.sum) ∧
    (Temperature (changeTemp 1 (changeTemp 1 (changeTemp 1 (useState 68))))).1.temperature
      = 71 := by
  refine ⟨?_, ?_, by decide⟩
  · rw [Temperature_changeTempAll, Temperature_useState, jsAddAll_of_within amounts c hwithin]
  · intro cell hcell
    rw [Temperature_changeTempAll, hcell, jsAddAll_of_within amounts c hwithin]

theorem changeTempAll_no_lost_updates_witness :
    (∀ k : Nat, k ≤ ([1, 1, 1] : List Int).length →
      withinExactLimit (68 + (([1, 1, 1] : List Int).take k).sum)) ∧
    (Temperature (changeTempAll [1, 1, 1] (useState 68))).1.temperature =
      68 + ([1, 1, 1] : List Int).sum ∧
    (Temperature (changeTempAll [1, 1, 1] (changeTemp 8 (useState 60)))).1.temperature =
      68 + ([1, 1, 1] : List Int).sum :=
  ⟨by decide, (changeTempAll_no_lost_updates 68 [1, 1, 1] (by decide)).1,
   (changeTempAll_no_lost_updates 68 [1, 1, 1] (by decide)).2.1
     (changeTemp 8 (useState 60)) (by decide)⟩

/-- C9, as stated, fails: `2 ^ 53 = 9007199254740992` Up actions from the
default state leave the value at `2 ^ 53`, not at `68 + 2 ^ 53`; adding one to
`2 ^ 53` gives `2 ^ 53` again. -/
theorem run_replicate_up_stops_at_limit :
    (run (List.replicate 9007199254740992 Action.Up)).1.temperature = 9007199254740992 ∧
    (run (List.replicate 9007199254740992 Action.Up)).1.temperature ≠
      68 + ((9007199254740992 : Nat) : Int) ∧
    (act (Temperature (useState 9007199254740992)) Action.Up).1.temperature =
      9007199254740992 := by
  have hstart : withinExactLimit 68 := by decide
  have hup : min ((68 : Int) + ((9007199254740992 : Nat) : Int)) kExactLimit =
      9007199254740992 := by
    decide
  have hrun : (run (List.replicate 9007199254740992 Action.Up)).1.temperature =
      9007199254740992 := by
    rw [run, mount_eq, foldl_act_replicate_up _ 68 hstart, hup, Temperature_useState]
  refine ⟨hrun, ?_, by decide⟩
  rw [hrun]
  decide

/-- C9, amended: the code has no clamp and no bounds check, and the counter
moves one by one as far as numbers are exact. For every natural number `n`,
Down applied `n` times from the default state yields `68 - n` as long as that
is at least `-2 ^ 53` and stays at `-2 ^ 53` afterwards, and Up applied `n`
times yields `68 + n` as long as that is at most `2 ^ 53` and stays at
`2 ^ 53` afterwards, with no error result; for every `n > 68` the value after
`n` Down actions is negative and its displayed category is cool. -/
theorem run_replicate_unbounded (n : Nat) :
    (run (List.replicate n Action.Down)).1.temperature = max (68 - (n : Int)) (-kExactLimit) ∧
    (run (List.replicate n Action.Up)).1.temperature = min (68 + (n : Int)) kExactLimit ∧
    ((n : Int) ≤ kExactLimit + 68 →
      (run (List.replicate n Action.Down)).1.temperature = 68 - (n : Int)) ∧
    ((n : Int) ≤ kExactLimit - 68 →
      (run (List.replicate n Action.Up)).1.temperature = 68 + (n : Int)) ∧
    (68 < n →
      (run (List.replicate n Action.Down)).1.temperature < 0 ∧
      (run (List.replicate n Action.Down)).2.display.className = "cool") := by
  have hstart : withinExactLimit 68 := by decide
  have hscreen : run (List.replicate n Action.Down) =
      Temperature (useState (max (68 - (n : Int)) (-kExactLimit))) := by
    rw [run, mount_eq, foldl_act_replicate_down n 68 hstart]
  have hdown : (run (List.replicate n Action.Down)).1.temperature =
      max (68 - (n : Int)) (-kExactLimit) := by
    rw [hscreen, Temperature_useState]
  have hup : (run (List.replicate n Action.Up)).1.temperature =
      min (68 + (n : Int)) kExactLimit := by
    rw [run, mount_eq, foldl_act_replicate_up n 68 hstart, Temperature_useState]
  refine ⟨hdown, hup, ?_, ?_, ?_⟩
  · intro hn
    rw [hdown, kExactLimit] at *
    omega
  · intro hn
    rw [hup, kExactLimit] at *
    omega
  · intro hn
    have hneg : max (68 - (n : Int)) (-kExactLimit) < 0 := by
      rw [kExactLimit]
      omega
    refine ⟨by rw [hdown]; exact hneg, ?_⟩
    rw [hscreen]
    show calculateTempRange (max (68 - (n : Int)) (-kExactLimit)) = "cool"
    exact (calculateTempRange_eq_fallback_iff _).2 (by omega)

theorem run_replicate_unbounded_witness :
    (((100 : Nat) : Int) ≤ kExactLimit + 68 ∧
      (run (List.replicate 100 Action.Down)).1.temperature = 68 - ((100 : Nat) : Int)) ∧
    (((100 : Nat) : Int) ≤ kExactLimit - 68 ∧
      (run (List.replicate 100 Action.Up)).1.temperature = 68 + ((100 : Nat) : Int)) ∧
    (68 < 100 ∧
      ((run (List.replicate 100 Action.Down)).1.temperature < 0 ∧
       (run (List.replicate 100 Action.Down)).2.display.className = "cool")) :=
  ⟨⟨by decide, (run_replicate_unbounded 100).2.2.1 (by decide)⟩,
   ⟨by decide, (run_replicate_unbounded 100).2.2.2.1 (by decide)⟩,
   ⟨by decide, (run_replicate_unbounded 100).2.2.2.2 (by decide)⟩⟩

/-- C10: display invariant. In every state reachable from the initial state by
Up and Down actions, the rendered output shows the current temperature value
followed by the fixed unit symbol (the text after `{temperature}` on line 88),
and the css class applied to it is `calculateTempRange` of the current
temperature; the category is not stored in the state but recomputed from the
value by each render, so it cannot be stale relative to the value. -/
theorem run_display_invariant (actions : List Action) :
    (run actions).2.display.value = (run actions).1.temperature ∧
    (run actions).2.display.unit = "â„‰" ∧
    (run actions).2.display.unit = mount.2.display.unit ∧
    (run actions).2.display.className = calculateTempRange (run actions).1.temperature ∧
    (run actions).1.pending = [] ∧
    (run actions).2 = (Temperature (useState (run actions).1.temperature)).2 := by
  have h := run_rendered actions
  generalize run actions = screen at h
  rw [h]
  exact ⟨rfl, rfl, rfl, rfl, rfl, rfl⟩

/-- C12: table invariant. The lower bounds of `kTempRanges`, read in table
order, are strictly descending (80 > 70 > 60 > 50), so no two records share a
lower bound, and the four labels together with the fallback label are five
pairwise distinct strings. -/
theorem kTempRanges_strictly_descending :
    kTempRanges.map Prod.fst = [80, 70, 60, 50] ∧
    List.Pairwise (fun higher lower => higher > lower) (kTempRanges.map Prod.fst) ∧
    (kTempRanges.map Prod.fst).Nodup ∧
    allTempRanges.length = 5 ∧
    allTempRanges.Nodup := by
  refine ⟨rfl, ?_, ?_, rfl, ?_⟩
  · simp [kTempRanges]
  · simp [kTempRanges]
  · rw [allTempRanges_eq]
    decide

/-- C13: a freshly created component holds exactly the default value
`kDefaultTemperature = 68` before any action is applied, and its displayed
category in that state is `calculateTempRange 68`, which is warm. -/
theorem mount_default_temperature :
    kDefaultTemperature = 68 ∧
    (useState kDefaultTemperature).temperature = 68 ∧
    (useState kDefaultTemperature).pending = [] ∧
    mount.1.temperature = 68 ∧
    (run []).1.temperature = 68 ∧
    mount.2.display.value = 68 ∧
    mount.2.display.className = calculateTempRange 68 ∧
    calculateTempRange 68 = "warm" := by
  refine ⟨rfl, rfl, rfl, rfl, rfl, rfl, rfl, ?_⟩
  rw [calculateTempRange_unroll]
  simp

/-- C14, as stated, fails in its value: with the rendered value
`2 ^ 53 = 9007199254740992` and the amount 1, both styles of the setter leave
the state at `2 ^ 53`, which is not `c + a = 2 ^ 53 + 1`. -/
theorem changeTempByValue_at_limit_not_sum :
    (Temperature (changeTempByValue 9007199254740992 1
      (useState 9007199254740992))).1.temperature = 9007199254740992 ∧
    (Temperature (changeTemp 1 (useState 9007199254740992))).1.temperature =
      9007199254740992 ∧
    (Temperature (changeTempByValue 9007199254740992 1
      (useState 9007199254740992))).1.temperature ≠ 9007199254740992 + 1 := by
  decide

/-- C14, amended: in this application the value-passing style of the setter
makes no difference. For every rendered integer value `c` and every integer
amount `a`, when exactly one `changeTemp a` call is made between two renders,
the value-passing variant `setTemperature(temperature + amount)`, with
`temperature` read from the state at the start of the render, produces the same
new state as the function-passing variant of line 61, and that state is
`c + a` whenever `c + a` is at most `2 ^ 53` in magnitude; hence every sequence
of Up and Down actions, each followed by a render, gives the same screen in
both styles. -/
theorem changeTempByValue_same_for_single_call (c a : Int) :
    (Temperature (useState c)).2.display.value = c ∧
    (withinExactLimit (c + a) →
      (Temperature (changeTempByValue c a (useState c))).1.temperature = c + a ∧
      (Temperature (changeTemp a (useState c))).1.temperature = c + a) ∧
    Temperature (changeTempByValue c a (useState c)) = Temperature (changeTemp a (useState c)) ∧
    (∀ action : Action,
      actByValue (Temperature (useState c)) action = act (Temperature (useState c)) action) ∧
    (∀ actions : List Action, actions.foldl actByValue mount = run actions) := by
  have hfun : Temperature (changeTemp a (useState c)) = Temperature (useState (jsAdd c a)) := by
    rw [Temperature_changeTemp, Temperature_useState]
  have hval : Temperature (changeTempByValue c a (useState c)) =
      Temperature (useState (jsAdd c a)) := rfl
  refine ⟨rfl, ?_, ?_, ?_, ?_⟩
  · intro hsum
    rw [hval, hfun, Temperature_useState, jsAdd_of_within c a hsum]
    exact ⟨rfl, rfl⟩
  · rw [hval, hfun]
  · intro action
    rw [actByValue_Temperature, act_Temperature]
  · intro actions
    have hboth : ∀ (acts : List Action) (v : Int),
        acts.foldl actByValue (Temperature (useState v)) =
          acts.foldl act (Temperature (useState v)) := by
      intro acts
      induction acts with
      | nil => intro v; rfl
      | cons action rest ih =>
        intro v
        rw [List.foldl_cons, List.foldl_cons, actByValue_Temperature, act_Temperature, ih]
    rw [run, mount_eq, hboth]

theorem changeTempByValue_same_for_single_call_witness :
    withinExactLimit (68 + 1) ∧
      ((Temperature (changeTempByValue 68 1 (useState 68))).1.temperature = 68 + 1 ∧
       (Temperature (changeTemp 1 (useState 68))).1.temperature = 68 + 1) :=
  ⟨by decide, (changeTempByValue_same_for_single_call 68 1).2.1 (by decide)⟩

/-- C15: each label corresponds to exactly one interval of integers. For every
integer `v`, `calculateTempRange v` is very-hot iff `v ≥ 80`, hot iff
`70 ≤ v ≤ 79`, warm iff `60 ≤ v ≤ 69`, mild iff `50 ≤ v ≤ 59`, and cool iff
`v ≤ 49`. -/
theorem calculateTempRange_intervals (v : Int) :
    (calculateTempRange v = "very-hot" ↔ v ≥ 80) ∧
    (calculateTempRange v = "hot" ↔ 70 ≤ v ∧ v ≤ 79) ∧
    (calculateTempRange v = "warm" ↔ 60 ≤ v ∧ v ≤ 69) ∧
    (calculateTempRange v = "mild" ↔ 50 ≤ v ∧ v ≤ 59) ∧
    (calculateTempRange v = "cool" ↔ v ≤ 49) := by
  rw [calculateTempRange_unroll]
  refine ⟨?_, ?_, ?_, ?_, ?_⟩ <;> split_ifs <;> simp <;> omega

/-- C16: `calculateTempRange` is monotone. Under the category order
cool < mild < warm < hot < very-hot, given by the ranks 0 to 4, for all
integers `v ≤ w` the category of `v` is less than or equal to the category of
`w`. -/
theorem calculateTempRange_monotone (v w : Int) (h : v ≤ w) :
    coolToHot.map tempRangeRank = [0, 1, 2, 3, 4] ∧
    tempRangeRank (calculateTempRange v) ≤ tempRangeRank (calculateTempRange w) := by
  refine ⟨by decide, ?_⟩
  rw [tempRangeRank_calculateTempRange, tempRangeRank_calculateTempRange]
  split_ifs <;> omega

theorem calculateTempRange_monotone_witness :
    ((55 : Int) ≤ 72) ∧
      (coolToHot.map tempRangeRank = [0, 1, 2, 3, 4] ∧
       tempRangeRank (calculateTempRange 55) ≤ tempRangeRank (calculateTempRange 72)) :=
  ⟨by decide, calculateTempRange_monotone 55 72 (by decide)⟩

/-- C17: a single Up or Down action never skips a category. For every integer
`v`, `calculateTempRange (v + 1)` is either `calculateTempRange v` or the
immediately next hotter category in the order cool < mild < warm < hot <
very-hot, and it differs from `calculateTempRange v` exactly when `v + 1` is
one of 50, 60, 70, 80; Up from `v` displays the former and Down from `v + 1`
displays the latter. -/
theorem calculateTempRange_no_skip (v : Int) :
    (calculateTempRange (v + 1) = calculateTempRange v ∨
      tempRangeRank (calculateTempRange (v + 1)) = tempRangeRank (calculateTempRange v) + 1) ∧
    (calculateTempRange (v + 1) ≠ calculateTempRange v ↔
      (v + 1 = 50 ∨ v + 1 = 60 ∨ v + 1 = 70 ∨ v + 1 = 80)) ∧
    (act (Temperature (useState v)) Action.Up).2.display.className =
      calculateTempRange (v + 1) ∧
    (act (Temperature (useState (v + 1))) Action.Down).2.display.className =
      calculateTempRange v := by
  refine ⟨?_, ?_, ?_, ?_⟩
  · by_cases hstep : v + 1 = 50 ∨ v + 1 = 60 ∨ v + 1 = 70 ∨ v + 1 = 80
    · right
      rw [tempRangeRank_calculateTempRange, tempRangeRank_calculateTempRange]
      split_ifs <;> omega
    · left
      rw [calculateTempRange_unroll, calculateTempRange_unroll]
      split_ifs <;> first | rfl | omega
  · rw [calculateTempRange_unroll, calculateTempRange_unroll]
    split_ifs <;> simp <;> omega
  · rw [act_Temperature]
    exact calculateTempRange_roundToDouble (v + 1)
  · rw [act_Temperature]
    have hback : v + 1 + Action.Down.step = v := by
      simp [Action.step]
    show calculateTempRange (roundToDouble (v + 1 + Action.Down.step)) = calculateTempRange v
    rw [hback]
    exact calculateTempRange_roundToDouble v

/-- C18, as stated, fails: at the state `2 ^ 53 = 9007199254740992` Up then
Down ends at `2 ^ 53 - 1` while Down then Up ends at `2 ^ 53`, so Up then Down
does not return to the state and `changeTemp 1` and `changeTemp (-1)` do not
commute there. -/
theorem up_then_down_at_limit_not_inverse :
    (act (act (Temperature (useState 9007199254740992)) Action.Up) Action.Down).1.temperature =
      9007199254740991 ∧
    (act (act (Temperature (useState 9007199254740992)) Action.Down) Action.Up).1.temperature =
      9007199254740992 ∧
    (Temperature (changeTemp (-1) (changeTemp 1 (useState 9007199254740992)))).1.temperature ≠
      (Temperature (changeTemp 1 (changeTemp (-1) (useState 9007199254740992)))).1.temperature := by
  decide

/-- C18, amended: within the range where numbers are exact, Up and Down are
mutually inverse and commute. For every integer state `c` with
`-2 ^ 53 ≤ c < 2 ^ 53`, Up then Down returns the component to the screen of `c`,
and for every `c` with `-2 ^ 53 < c ≤ 2 ^ 53` so does Down then Up (the same
state and the same displayed category); for all integer amounts `a` and `b`
such that `c + a`, `c + b` and `c + a + b` are at most `2 ^ 53` in magnitude,
`changeTemp a` followed by `changeTemp b` yields the same state `c + a + b` as
`changeTemp b` followed by `changeTemp a`, whether or not a render separates
the two calls. -/
theorem up_down_inverse_changeTemp_commute (c a b : Int) :
    (-kExactLimit ≤ c ∧ c < kExactLimit →
      act (act (Temperature (useState c)) Action.Up) Action.Down = Temperature (useState c)) ∧
    (-kExactLimit < c ∧ c ≤ kExactLimit →
      act (act (Temperature (useState c)) Action.Down) Action.Up = Temperature (useState c)) ∧
    (withinExactLimit (c + a) ∧ withinExactLimit (c + b) ∧ withinExactLimit (c + a + b) →
      ∀ cell : TemperatureState, (Temperature cell).1.temperature = c →
        Temperature (changeTemp b (changeTemp a cell)) =
          Temperature (changeTemp a (changeTemp b cell)) ∧
        Temperature (changeTemp b (Temperature (changeTemp a cell)).1) =
          Temperature (changeTemp a (Temperature (changeTemp b cell)).1) ∧
        (Temperature (changeTemp b (changeTemp a cell))).1.temperature = c + a + b) := by
  refine ⟨?_, ?_, ?_⟩
  · intro hc
    have hup : jsAdd c Action.Up.step = c + 1 :=
      jsAdd_of_within c 1 (by unfold withinExactLimit; omega)
    have hdown : jsAdd (c + 1) Action.Down.step = c + 1 + -1 :=
      jsAdd_of_within (c + 1) (-1) (by unfold withinExactLimit; omega)
    rw [act_Temperature, hup, act_Temperature, hdown]
    congr 2
    omega
  · intro hc
    have hdown : jsAdd c Action.Down.step = c + -1 :=
      jsAdd_of_within c (-1) (by unfold withinExactLimit; omega)
    have hup : jsAdd (c + -1) Action.Up.step = c + -1 + 1 :=
      jsAdd_of_within (c + -1) 1 (by unfold withinExactLimit; omega)
    rw [act_Temperature, hdown, act_Temperature, hup]
    congr 2
    omega
  · rintro ⟨ha, hb, hab⟩ cell hcell
    have hba : withinExactLimit (c + b + a) := by
      have heq : c + b + a = c + a + b := by omega
      rw [heq]
      exact hab
    have h1 : Temperature (changeTemp b (changeTemp a cell)) =
        Temperature (useState (c + a + b)) := by
      rw [Temperature_changeTemp b, Temperature_changeTemp a, Temperature_useState, hcell,
        jsAdd_of_within c a ha, jsAdd_of_within (c + a) b hab]
    have h2 : Temperature (changeTemp a (changeTemp b cell)) =
        Temperature (useState (c + a + b)) := by
      rw [Temperature_changeTemp a, Temperature_changeTemp b, Temperature_useState, hcell,
        jsAdd_of_within c b hb, jsAdd_of_within (c + b) a hba]
      congr 2
      omega
    have h3 : Temperature (changeTemp b (Temperature (changeTemp a cell)).1) =
        Temperature (useState (c + a + b)) := by
      rw [Temperature_changeTemp b, Temperature_changeTemp a, hcell]
      show Temperature (useState (jsAdd (jsAdd c a) b)) = _
      rw [jsAdd_of_within c a ha, jsAdd_of_within (c + a) b hab]
    have h4 : Temperature (changeTemp a (Temperature (changeTemp b cell)).1) =
        Temperature (useState (c + a + b)) := by
      rw [Temperature_changeTemp a, Temperature_changeTemp b, hcell]
      show Temperature (useState (jsAdd (jsAdd c b) a)) = _
      rw [jsAdd_of_within c b hb, jsAdd_of_within (c + b) a hba]
      congr 2
      omega
    exact ⟨by rw [h1, h2], by rw [h3, h4], by rw [h1, Temperature_useState]⟩

theorem up_down_inverse_changeTemp_commute_witness :
    ((-kExactLimit ≤ (68 : Int) ∧ (68 : Int) < kExactLimit) ∧
      act (act (Temperature (useState 68)) Action.Up) Action.Down =
        Temperature (useState 68)) ∧
    ((-kExactLimit < (68 : Int) ∧ (68 : Int) ≤ kExactLimit) ∧
      act (act (Temperature (useState 68)) Action.Down) Action.Up =
        Temperature (useState 68)) ∧
    ((withinExactLimit (68 + 5) ∧ withinExactLimit (68 + -3) ∧ withinExactLimit (68 + 5 + -3)) ∧
      (Temperature (changeTemp (-3) (changeTemp 5 (useState 68)))).1.temperature =
        68 + 5 + -3) :=
  ⟨⟨by decide, (up_down_inverse_changeTemp_commute 68 5 (-3)).1 (by decide)⟩,
   ⟨by decide, (up_down_inverse_changeTemp_commute 68 5 (-3)).2.1 (by decide)⟩,
   ⟨by decide,
    ((up_down_inverse_changeTemp_commute 68 5 (-3)).2.2 (by decide) (useState 68) rfl).2.2⟩⟩

end WeatherReport
